import Mathlib

/-!
Verification of the kirk IRC client (src/kirk/client.py) against its
natural-language specification.  The Python source is shallowly embedded:
pure functions become Lean functions, stateful methods become explicit
state-passing functions, Python integers become Nat/Int, and fallible code
returns Option.
-/

/-- Python's modulo on integers: the result of `a % m` for `m > 0` is always
in `[0, m)`.  `Int.emod` has the same convention, so we reuse it and convert
back to `Nat` (all indices produced this way are nonnegative). -/
def pyMod (a : Int) (m : Nat) : Nat := (a % (m : Int)).toNat

/-- Reducing the left operand modulo `m` first does not change `pyMod`
(mirrors that Python index arithmetic is stable under `% m`). -/
theorem pyMod_natMod_congr (n i m : Nat) :
    pyMod (((n % m : Nat) : Int) - i - 1) m = pyMod ((n : Int) - i - 1) m := by
  unfold pyMod
  congr 1
  rw [Int.natCast_mod]
  have h2 : Int.ModEq (m : Int) ((n : Int) % (m : Int)) (n : Int) :=
    Int.emod_emod_of_dvd _ (dvd_refl _)
  exact (h2.sub_right (i : Int)).sub_right 1

/-- Evaluation of `pyMod (d - i - 1) m` for in-range arguments: the index
wraps to `d + m - i - 1` exactly when `i ≥ d`. -/
theorem pyMod_sub_eval (d i m : Nat) (hd : d ≤ m) (hi : i < m) :
    pyMod ((d : Int) - i - 1) m = if i < d then d - i - 1 else d + m - i - 1 := by
  unfold pyMod
  split
  · rename_i h
    have hcast : (d : Int) - i - 1 = ((d - i - 1 : Nat) : Int) := by omega
    rw [hcast,
      Int.emod_eq_of_lt (Int.natCast_nonneg _)
        (by exact_mod_cast (show d - i - 1 < m by omega))]
    exact Int.toNat_natCast _
  · rename_i h
    have hstep : ((d : Int) - i - 1) % m = ((d : Int) - i - 1 + m) % m := by
      conv_rhs => rw [show (d : Int) - i - 1 + m = (d : Int) - i - 1 + m * 1 by ring]
      rw [Int.add_mul_emod_self_left]
    have hcast : (d : Int) - i - 1 + m = ((d + m - i - 1 : Nat) : Int) := by omega
    rw [hstep, hcast,
      Int.emod_eq_of_lt (Int.natCast_nonneg _)
        (by exact_mod_cast (show d + m - i - 1 < m by omega))]
    exact Int.toNat_natCast _

/-- Fixed-length circular buffer (class `Buffer` in src/kirk/client.py):
`size` is the capacity, `buf` the backing list, `len` the fill count and
`idx` the write cursor (slot of the next write). -/
structure Buffer (α : Type) where
  size : Nat
  buf : List α
  len : Nat
  idx : Nat
  deriving Repr, DecidableEq

namespace Buffer

variable {α : Type}

/-- Constructor `Buffer.__init__`: `self.size = size or 1024` (so both a
missing size and an explicit 0 yield the default 1024). -/
def init : Option Nat → Buffer α
  | none => { size := 1024, buf := [], len := 0, idx := 0 }
  | some s => { size := if s = 0 then 1024 else s, buf := [], len := 0, idx := 0 }

/-- Method `Buffer.insert`: append while not yet full, otherwise overwrite
the slot under the write cursor; in both cases advance the cursor modulo
the capacity. -/
def insert (b : Buffer α) (x : α) : Buffer α :=
  if b.len < b.size then
    { b with buf := b.buf ++ [x], len := b.len + 1, idx := (b.idx + 1) % b.size }
  else
    { b with buf := b.buf.set b.idx x, idx := (b.idx + 1) % b.size }

/-- Method `Buffer.__iter__`: yields the `len` stored elements newest first,
element `i` living at slot `(idx - i - 1) % size`. -/
def iter [Inhabited α] (b : Buffer α) : List α :=
  (List.range b.len).map fun (i : Nat) =>
    b.buf.getD (pyMod ((b.idx : Int) - (i : Int) - 1) b.size) default

/-- Method `Buffer.fixed_iter`: iterate previous items from a fixed anchor
`start`, independent of the current write cursor. -/
def fixedIter [Inhabited α] (b : Buffer α) (start : Nat) : List α :=
  if b.len = b.size then
    let readable := if start ≤ b.idx then start + b.len - b.idx else start - b.idx
    (List.range readable).map fun (i : Nat) =>
      b.buf.getD (pyMod ((start : Int) - (i : Int) - 1) b.size) default
  else
    let clamped := min start b.idx
    (List.range clamped).map fun (i : Nat) =>
      b.buf.getD (pyMod ((clamped : Int) - (i : Int) - 1) b.size) default

/-- Modelled from the spec: the closed-form formula of section 3 for
`fixed_iter`, written with the spec's own letters (`a` the anchor, `w` the
write cursor, `C` the capacity, `n` the fill count); it is compared with
the implementation-level `Buffer.fixedIter` in the refinement theorem. -/
def fixedIterSpec [Inhabited α] (b : Buffer α) (a : Nat) : List α :=
  if b.len = b.size then
    let readable := if a ≤ b.idx then a + b.size - b.idx else a - b.idx
    (List.range readable).map fun (i : Nat) =>
      b.buf.getD (pyMod ((a : Int) - (i : Int) - 1) b.size) default
  else
    let clamped := min a b.idx
    (List.range clamped).map fun (i : Nat) =>
      b.buf.getD (pyMod ((clamped : Int) - (i : Int) - 1) b.size) default

/-- Folding `Buffer.insert` over a list of items, oldest first. -/
def insertList (b : Buffer α) (xs : List α) : Buffer α := xs.foldl insert b

/-- The buffer obtained by inserting the items of `xs` in order into a
fresh buffer of capacity `C`. -/
def build (C : Nat) (xs : List α) : Buffer α := insertList (init (some C)) xs

/-- Well-formedness invariant of reachable buffer states. -/
def WF (b : Buffer α) : Prop :=
  0 < b.size ∧ b.len ≤ b.size ∧ b.buf.length = b.len ∧ b.idx < b.size ∧
    (b.len < b.size → b.idx = b.len)

end Buffer

section BufferSanity

/-- Sanity: the scenario of the repository's own test_buffer_fixed_iteration. -/
example : (Buffer.build 5 [0, 1, 2] : Buffer Nat).iter = [2, 1, 0] := by decide

example : (Buffer.build 5 [0, 1, 2] : Buffer Nat).fixedIter 0 = [] := by decide

example : (Buffer.build 5 [0, 1, 2, 3, 4, 5, 6] : Buffer Nat).iter = [6, 5, 4, 3, 2] := by decide

example : (Buffer.build 5 [0, 1, 2, 3, 4, 5, 6] : Buffer Nat).buf = [5, 6, 2, 3, 4] := by decide

example : (Buffer.build 5 [0, 1, 2, 3, 4, 5, 6] : Buffer Nat).fixedIter 5 = [4, 3, 2] := by
  decide

example : (Buffer.build 5 [0, 1, 2, 3, 4, 5, 6, 7] : Buffer Nat).fixedIter 5 = [4, 3] := by
  decide

end BufferSanity

/-- Helper: reading a just-overwritten slot gives the new element. -/
theorem getD_set_self {α : Type} (l : List α) (i : Nat) (a d : α) (h : i < l.length) :
    (l.set i a).getD i d = a := by
  rw [List.getD_eq_getElem?_getD, List.getElem?_set_self h]
  rfl

/-- Helper: reading any other slot of an overwritten list is unchanged. -/
theorem getD_set_ne {α : Type} (l : List α) (i j : Nat) (a d : α) (h : i ≠ j) :
    (l.set i a).getD j d = l.getD j d := by
  rw [List.getD_eq_getElem?_getD, List.getD_eq_getElem?_getD, List.getElem?_set_ne h]

namespace Buffer

variable {α : Type}

theorem iter_length [Inhabited α] (b : Buffer α) : b.iter.length = b.len := by
  simp [iter]

/-- Well-formedness is preserved by `Buffer.insert`. -/
theorem wf_insert (b : Buffer α) (x : α) (h : b.WF) : (b.insert x).WF := by
  obtain ⟨h1, h2, h3, h4, h5⟩ := h
  have hmod : (b.idx + 1) % b.size < b.size := Nat.mod_lt _ h1
  unfold Buffer.insert Buffer.WF
  split
  · rename_i hlt
    have hil : b.idx = b.len := h5 hlt
    refine ⟨h1, ?_, ?_, hmod, ?_⟩
    · show b.len + 1 ≤ b.size
      omega
    · show (b.buf ++ [x]).length = b.len + 1
      simp [h3]
    · show b.len + 1 < b.size → (b.idx + 1) % b.size = b.len + 1
      intro hlt2
      rw [hil, Nat.mod_eq_of_lt (by omega)]
  · rename_i hge
    refine ⟨h1, h2, ?_, hmod, ?_⟩
    · show (b.buf.set b.idx x).length = b.len
      simp [h3]
    · show b.len < b.size → (b.idx + 1) % b.size = b.len
      intro hlt2
      omega

/-- Inserting into a buffer that is not yet full prepends the new element to
the newest-first iteration. -/
theorem iter_insert_of_not_full [Inhabited α] (b : Buffer α) (x : α)
    (hwf : b.WF) (hlt : b.len < b.size) : (b.insert x).iter = x :: b.iter := by
  obtain ⟨hs, hle, hbl, hidx, hpart⟩ := hwf
  have hil : b.idx = b.len := hpart hlt
  have hins : (b.insert x).iter = (List.range (b.len + 1)).map fun (i : Nat) =>
      (b.buf ++ [x]).getD
        (pyMod ((((b.idx + 1) % b.size : Nat) : Int) - (i : Int) - 1) b.size) default := by
    unfold Buffer.insert
    rw [if_pos hlt]
    rfl
  rw [hins]
  unfold Buffer.iter
  rw [List.range_succ_eq_map, List.map_cons, List.map_map]
  congr 1
  · show (b.buf ++ [x]).getD
        (pyMod ((((b.idx + 1) % b.size : Nat) : Int) - ((0 : Nat) : Int) - 1) b.size) default = x
    rw [pyMod_natMod_congr (b.idx + 1) 0 b.size,
      pyMod_sub_eval (b.idx + 1) 0 b.size (by omega) (by omega)]
    rw [if_pos (by omega : 0 < b.idx + 1)]
    have hpos : b.idx + 1 - 0 - 1 = b.buf.length := by omega
    rw [hpos, List.getD_append_right _ _ _ _ (le_refl _), Nat.sub_self]
    rfl
  · apply List.map_congr_left
    intro i hi
    have hilt : i < b.len := List.mem_range.mp hi
    simp only [Function.comp]
    rw [pyMod_natMod_congr (b.idx + 1) (Nat.succ i) b.size,
      pyMod_sub_eval (b.idx + 1) (Nat.succ i) b.size (by omega) (by omega),
      pyMod_sub_eval b.idx i b.size (by omega) (by omega)]
    rw [if_pos (by omega : Nat.succ i < b.idx + 1), if_pos (by omega : i < b.idx)]
    have harith : b.idx + 1 - Nat.succ i - 1 = b.idx - i - 1 := by omega
    rw [harith]
    exact List.getD_append _ _ _ _ (by omega)

/-- Inserting into a full buffer prepends the new element and drops the
oldest one from the newest-first iteration. -/
theorem iter_insert_of_full [Inhabited α] (b : Buffer α) (x : α)
    (hwf : b.WF) (hfull : b.len = b.size) : (b.insert x).iter = x :: b.iter.dropLast := by
  obtain ⟨hs, hle, hbl, hidx, hpart⟩ := hwf
  have hlen1 : b.len = (b.len - 1) + 1 := by omega
  have hins : (b.insert x).iter = (List.range b.len).map fun (i : Nat) =>
      (b.buf.set b.idx x).getD
        (pyMod ((((b.idx + 1) % b.size : Nat) : Int) - (i : Int) - 1) b.size) default := by
    unfold Buffer.insert
    rw [if_neg (by omega)]
    rfl
  have hdrop : b.iter.dropLast = (List.range (b.len - 1)).map fun (i : Nat) =>
      b.buf.getD (pyMod ((b.idx : Int) - (i : Int) - 1) b.size) default := by
    unfold Buffer.iter
    conv_lhs => rw [hlen1, List.range_succ]
    rw [List.map_append, List.map_singleton, List.dropLast_concat]
  rw [hins, hdrop]
  conv_lhs => rw [hlen1]
  rw [List.range_succ_eq_map, List.map_cons, List.map_map]
  congr 1
  · show (b.buf.set b.idx x).getD
        (pyMod ((((b.idx + 1) % b.size : Nat) : Int) - ((0 : Nat) : Int) - 1) b.size) default = x
    rw [pyMod_natMod_congr (b.idx + 1) 0 b.size,
      pyMod_sub_eval (b.idx + 1) 0 b.size (by omega) (by omega),
      if_pos (by omega : 0 < b.idx + 1)]
    have hpos : b.idx + 1 - 0 - 1 = b.idx := by omega
    rw [hpos]
    exact getD_set_self _ _ _ _ (by omega)
  · apply List.map_congr_left
    intro i hi
    have hilt : i < b.len - 1 := List.mem_range.mp hi
    simp only [Function.comp]
    rw [pyMod_natMod_congr (b.idx + 1) (Nat.succ i) b.size,
      pyMod_sub_eval (b.idx + 1) (Nat.succ i) b.size (by omega) (by omega),
      pyMod_sub_eval b.idx i b.size (by omega) (by omega)]
    by_cases hcase : i < b.idx
    · rw [if_pos (by omega : Nat.succ i < b.idx + 1), if_pos hcase]
      have harith : b.idx + 1 - Nat.succ i - 1 = b.idx - i - 1 := by omega
      rw [harith]
      exact getD_set_ne _ _ _ _ _ (by omega)
    · rw [if_neg (by omega : ¬ Nat.succ i < b.idx + 1), if_neg hcase]
      have harith : b.idx + 1 + b.size - Nat.succ i - 1 = b.idx + b.size - i - 1 := by omega
      rw [harith]
      exact getD_set_ne _ _ _ _ _ (by omega)

/-- Unfolding one snoc step of `Buffer.build`. -/
theorem build_snoc (C : Nat) (xs : List α) (x : α) :
    Buffer.build C (xs ++ [x]) = (Buffer.build C xs).insert x := by
  unfold Buffer.build Buffer.insertList
  rw [List.foldl_append]
  rfl

/-- Characterization of every buffer state reachable by inserting the items
of `xs` into a fresh buffer of capacity `C`: the capacity is preserved, the
state is well formed, the fill count is `min |xs| C`, the write cursor is
`|xs| mod C`, and newest-first iteration returns the last `C` inserted
items, newest first. -/
theorem build_spec [Inhabited α] (C : Nat) (hC : 0 < C) (xs : List α) :
    (Buffer.build C xs).size = C ∧ (Buffer.build C xs).WF ∧
    (Buffer.build C xs).len = min xs.length C ∧
    (Buffer.build C xs).idx = xs.length % C ∧
    (Buffer.build C xs).iter = xs.reverse.take C := by
  induction xs using List.reverseRecOn with
  | nil =>
    have hC0 : ¬ C = 0 := by omega
    unfold Buffer.build Buffer.insertList Buffer.init Buffer.WF Buffer.iter
    simp [hC0, hC]
  | append_singleton xs x ih =>
    obtain ⟨hsize, hwf, hlen, hidx, hiter⟩ := ih
    rw [build_snoc]
    have hwfins : ((Buffer.build C xs).insert x).WF := wf_insert _ _ hwf
    have hsizeins : ((Buffer.build C xs).insert x).size = (Buffer.build C xs).size := by
      unfold Buffer.insert
      split <;> rfl
    have hidxins : ((Buffer.build C xs).insert x).idx =
        ((Buffer.build C xs).idx + 1) % (Buffer.build C xs).size := by
      unfold Buffer.insert
      split <;> rfl
    by_cases hfull : xs.length < C
    · have hnotfull : (Buffer.build C xs).len < (Buffer.build C xs).size := by
        rw [hlen, hsize]
        omega
      have hlt : xs.length % C = xs.length := Nat.mod_eq_of_lt hfull
      have hlenins : ((Buffer.build C xs).insert x).len = (Buffer.build C xs).len + 1 := by
        unfold Buffer.insert
        rw [if_pos hnotfull]
      refine ⟨by rw [hsizeins, hsize], hwfins, ?_, ?_, ?_⟩
      · rw [hlenins, hlen]
        simp only [List.length_append, List.length_singleton]
        omega
      · rw [hidxins, hidx, hsize, hlt]
        simp only [List.length_append, List.length_singleton]
      · rw [iter_insert_of_not_full _ _ hwf hnotfull, hiter]
        have hxsrev : xs.reverse.take C = xs.reverse := by
          apply List.take_of_length_le
          simp only [List.length_reverse]
          omega
        rw [hxsrev]
        simp only [List.reverse_append, List.reverse_singleton, List.singleton_append]
        have hCsucc : C = (C - 1) + 1 := by omega
        rw [hCsucc, List.take_succ_cons]
        rw [List.take_of_length_le (by simp only [List.length_reverse]; omega)]
    · have hfull2 : (Buffer.build C xs).len = (Buffer.build C xs).size := by
        rw [hlen, hsize]
        omega
      have hlenins : ((Buffer.build C xs).insert x).len = (Buffer.build C xs).len := by
        unfold Buffer.insert
        rw [if_neg (by omega)]
      refine ⟨by rw [hsizeins, hsize], hwfins, ?_, ?_, ?_⟩
      · rw [hlenins, hlen]
        simp only [List.length_append, List.length_singleton]
        omega
      · rw [hidxins, hidx, hsize]
        simp only [List.length_append, List.length_singleton]
        rw [Nat.add_mod xs.length 1 C]
        conv_lhs => rw [Nat.add_mod (xs.length % C) 1 C, Nat.mod_mod_of_dvd _ (dvd_refl C)]
      · rw [iter_insert_of_full _ _ hwf hfull2, hiter]
        have hlentake : (xs.reverse.take C).length = C := by
          simp only [List.length_take, List.length_reverse]
          omega
        rw [List.dropLast_eq_take, hlentake, List.take_take,
          min_eq_left (by omega : C - 1 ≤ C)]
        simp only [List.reverse_append, List.reverse_singleton, List.singleton_append]
        have hCsucc : C = (C - 1) + 1 := by omega
        conv_rhs => rw [hCsucc, List.take_succ_cons]

end Buffer

/-- C1 (amended): `fixed_iter` reproduces the closed-form formula of spec
section 3 at every buffer state and anchor; in the capacity-5 example,
anchor 0 before any wrap yields nothing, after filling plus two overwrites
anchor 5 yields the 3 items 4, 3, 2 (not 5 items), and one further insert
with the same anchor yields only the 2 items 4, 3. -/
theorem fixedIter_closed_form :
    (∀ (α : Type) (inst : Inhabited α) (b : Buffer α) (a : Nat),
      @Buffer.fixedIter α inst b a = @Buffer.fixedIterSpec α inst b a) ∧
    (Buffer.build 5 [0, 1, 2] : Buffer Nat).fixedIter 0 = [] ∧
    (Buffer.build 5 [0, 1, 2, 3, 4, 5, 6] : Buffer Nat).fixedIter 5 = [4, 3, 2] ∧
    (Buffer.build 5 [0, 1, 2, 3, 4, 5, 6, 7] : Buffer Nat).fixedIter 5 = [4, 3] := by
  refine ⟨?_, by decide, by decide, by decide⟩
  intro α inst b a
  unfold Buffer.fixedIter Buffer.fixedIterSpec
  by_cases h : b.len = b.size <;> simp [h]

/-- C1 counterexample: with capacity 5, after filling plus two overwrites,
`fixed_iter` with anchor 5 yields 3 items, not the 5 items the claim's
example asserts. -/
theorem fixedIter_anchor5_count :
    ((Buffer.build 5 [0, 1, 2, 3, 4, 5, 6] : Buffer Nat).fixedIter 5).length = 3 ∧
    ¬ ((Buffer.build 5 [0, 1, 2, 3, 4, 5, 6] : Buffer Nat).fixedIter 5).length = 5 := by
  decide

/-- C2: for every capacity `C`, inserting `k ≤ C` items into a fresh buffer
gives length `k` with newest-first iteration in reverse insertion order;
with at least `C` items inserted the length stays `C` and one further insert
prepends the new item and drops exactly the oldest remaining one; the write
cursor advances by 1 modulo the capacity on every insert. -/
theorem insert_iter_newest_first (C : Nat) (hC : 0 < C) (xs : List Nat) (x : Nat) :
    (xs.length ≤ C → (Buffer.build C xs : Buffer Nat).len = xs.length ∧
      (Buffer.build C xs : Buffer Nat).iter = xs.reverse) ∧
    (C ≤ xs.length → (Buffer.build C xs : Buffer Nat).len = C ∧
      (Buffer.build C (xs ++ [x]) : Buffer Nat).len = C ∧
      (Buffer.build C (xs ++ [x]) : Buffer Nat).iter =
        x :: (Buffer.build C xs : Buffer Nat).iter.dropLast) ∧
    (∀ (b : Buffer Nat) (y : Nat), (b.insert y).idx = (b.idx + 1) % b.size) := by
  obtain ⟨hsize, hwf, hlen, hidx, hiter⟩ := Buffer.build_spec C hC xs
  refine ⟨?_, ?_, ?_⟩
  · intro hk
    refine ⟨by rw [hlen]; omega, ?_⟩
    rw [hiter]
    exact List.take_of_length_le (by simp only [List.length_reverse]; omega)
  · intro hge
    have hfull : (Buffer.build C xs : Buffer Nat).len = (Buffer.build C xs).size := by
      rw [hlen, hsize]
      omega
    obtain ⟨hsize2, hwf2, hlen2, hidx2, hiter2⟩ := Buffer.build_spec C hC (xs ++ [x])
    refine ⟨by rw [hlen]; omega, ?_, ?_⟩
    · rw [hlen2]
      simp only [List.length_append, List.length_singleton]
      omega
    · rw [Buffer.build_snoc]
      exact Buffer.iter_insert_of_full _ _ hwf hfull
  · intro b y
    unfold Buffer.insert
    split <;> rfl

/-- C2 witness: concrete capacity-3 runs exercising both the partial-fill
clause and the overwrite clause of the theorem. -/
theorem insert_iter_newest_first_witness :
    (Buffer.build 3 [10, 20] : Buffer Nat).len = 2 ∧
    (Buffer.build 3 [10, 20] : Buffer Nat).iter = [20, 10] ∧
    (Buffer.build 3 [10, 20, 30, 40] : Buffer Nat).iter =
      40 :: (Buffer.build 3 [10, 20, 30] : Buffer Nat).iter.dropLast := by
  have h1 := insert_iter_newest_first 3 (by decide) [10, 20] 0
  have h2 := insert_iter_newest_first 3 (by decide) [10, 20, 30] 40
  exact ⟨(h1.1 (by decide)).1, (h1.1 (by decide)).2, (h2.2.1 (by decide)).2.2⟩

/-- C10: on every buffer state reachable by a sequence of inserts, before or
after wrapping, `fixed_iter` anchored at the current write cursor yields the
same sequence as default newest-first iteration. -/
theorem fixedIter_at_cursor_eq_iter (C : Nat) (hC : 0 < C) (xs : List Nat) :
    (Buffer.build C xs : Buffer Nat).fixedIter (Buffer.build C xs).idx =
      (Buffer.build C xs : Buffer Nat).iter := by
  obtain ⟨hsize, ⟨h1, h2, h3, h4, h5⟩, hlen, hidx, hiter⟩ := Buffer.build_spec C hC xs
  by_cases hful : (Buffer.build C xs : Buffer Nat).len = (Buffer.build C xs).size
  · unfold Buffer.fixedIter Buffer.iter
    rw [if_pos hful]
    simp only [le_refl, if_true]
    have hread : (Buffer.build C xs : Buffer Nat).idx + (Buffer.build C xs).len -
        (Buffer.build C xs).idx = (Buffer.build C xs).len := by omega
    rw [hread]
  · have hidxlen : (Buffer.build C xs : Buffer Nat).idx = (Buffer.build C xs).len :=
      h5 (by omega)
    unfold Buffer.fixedIter Buffer.iter
    rw [if_neg hful]
    simp only [min_self]
    rw [hidxlen]

/-- C10 witness: the cursor-anchored iteration coincides with default
iteration on a concrete wrapped buffer. -/
theorem fixedIter_at_cursor_eq_iter_witness :
    (Buffer.build 5 [0, 1, 2, 3, 4, 5, 6] : Buffer Nat).fixedIter
      (Buffer.build 5 [0, 1, 2, 3, 4, 5, 6] : Buffer Nat).idx =
    (Buffer.build 5 [0, 1, 2, 3, 4, 5, 6] : Buffer Nat).iter :=
  fixedIter_at_cursor_eq_iter 5 (by decide) [0, 1, 2, 3, 4, 5, 6]


/-!
String layer: helpers mirroring the Python `str` operations used by
`client.py`, operating on the underlying character lists.
-/

/-- Characters for which Python's `str.isspace` holds; this is the set
stripped by `str.strip()` and separating tokens for no-argument
`str.split()`. -/
def pyIsSpace (c : Char) : Bool :=
  ([0x09, 0x0a, 0x0b, 0x0c, 0x0d, 0x1c, 0x1d, 0x1e, 0x1f, 0x20,
    0x85, 0xa0, 0x1680, 0x2000, 0x2001, 0x2002, 0x2003, 0x2004, 0x2005, 0x2006,
    0x2007, 0x2008, 0x2009, 0x200a, 0x2028, 0x2029, 0x202f, 0x205f,
    0x3000] : List Nat).contains c.toNat

/-- Python `str.strip()` with no argument: drop whitespace on both ends. -/
def pyStrip (s : String) : String :=
  ⟨((s.data.dropWhile pyIsSpace).reverse.dropWhile pyIsSpace).reverse⟩

/-- Python `str.startswith`. -/
def pyStartsWith (s p : String) : Bool := p.data.isPrefixOf s.data

/-- Python slicing `s[n:]`. -/
def pyDropChars (s : String) (n : Nat) : String := ⟨s.data.drop n⟩

/-- Python string concatenation. -/
def pyConcat (a b : String) : String := ⟨a.data ++ b.data⟩

/-- Python `s.lstrip(chars)`: remove any leading characters that occur in
`chars`. -/
def pyLstrip (s chars : String) : String :=
  ⟨s.data.dropWhile (fun c => chars.data.contains c)⟩

/-- Splits at the first occurrence of the non-empty separator `sep`,
returning the pieces before and after it, or `none` when `sep` does not
occur (mirrors Python `s.split(sep, 1)` returning one or two pieces). -/
def splitOnceAux (sep : List Char) : List Char → Option (List Char × List Char)
  | [] => none
  | c :: cs =>
    if sep.isPrefixOf (c :: cs) then some ([], (c :: cs).drop sep.length)
    else
      match splitOnceAux sep cs with
      | some (l, r) => some (c :: l, r)
      | none => none

/-- String-level wrapper of `splitOnceAux`. -/
def pySplitOnce (sep s : String) : Option (String × String) :=
  match splitOnceAux sep.data s.data with
  | some (l, r) => some (⟨l⟩, ⟨r⟩)
  | none => none

/-- Python `sub in s` membership test. -/
def pyContains (s sub : String) : Bool := (splitOnceAux sub.data s.data).isSome

/-- Accumulator-based splitting on runs of whitespace (`acc` holds the
current word reversed). -/
def splitWsAux : List Char → List Char → List (List Char)
  | [], acc => if acc.isEmpty then [] else [acc.reverse]
  | c :: cs, acc =>
    if pyIsSpace c then
      if acc.isEmpty then splitWsAux cs [] else acc.reverse :: splitWsAux cs []
    else splitWsAux cs (c :: acc)

/-- Python no-argument `str.split()`: split on whitespace runs, dropping
empty pieces. -/
def pyWhitespaceSplit (s : String) : List String :=
  (splitWsAux s.data []).map fun l => (⟨l⟩ : String)

/-- A UTF-8 continuation byte. -/
def utf8Cont (b : Nat) : Bool := 0x80 <= b && b < 0xC0

/-- UTF-8 decoding with Python's `errors="ignore"` handler, written with an
explicit fuel argument (one unit per consumed lead byte) so that the
function is structurally recursive: well-formed sequences decode to their
scalar value, ill-formed input skips the maximal valid subpart (at least
one byte) and continues, and nothing is ever raised. -/
def utf8DecodeAux : Nat → List Nat → List Char
  | 0, _ => []
  | _, [] => []
  | fuel + 1, b :: bs =>
    if b < 0x80 then Char.ofNat b :: utf8DecodeAux fuel bs
    else if b < 0xC2 then utf8DecodeAux fuel bs
    else if b < 0xE0 then
      match bs with
      | [] => []
      | c1 :: bs1 =>
        if utf8Cont c1 then
          Char.ofNat ((b - 0xC0) * 0x40 + (c1 - 0x80)) :: utf8DecodeAux fuel bs1
        else utf8DecodeAux fuel bs
    else if b < 0xF0 then
      match bs with
      | [] => []
      | c1 :: bs1 =>
        if (if b = 0xE0 then decide (0xA0 <= c1) && decide (c1 < 0xC0)
            else if b = 0xED then decide (0x80 <= c1) && decide (c1 < 0xA0)
            else utf8Cont c1) then
          match bs1 with
          | [] => []
          | c2 :: bs2 =>
            if utf8Cont c2 then
              Char.ofNat ((b - 0xE0) * 0x1000 + (c1 - 0x80) * 0x40 + (c2 - 0x80)) ::
                utf8DecodeAux fuel bs2
            else utf8DecodeAux fuel bs1
        else utf8DecodeAux fuel bs
    else if b < 0xF5 then
      match bs with
      | [] => []
      | c1 :: bs1 =>
        if (if b = 0xF0 then decide (0x90 <= c1) && decide (c1 < 0xC0)
            else if b = 0xF4 then decide (0x80 <= c1) && decide (c1 < 0x90)
            else utf8Cont c1) then
          match bs1 with
          | [] => []
          | c2 :: bs2 =>
            if utf8Cont c2 then
              match bs2 with
              | [] => []
              | c3 :: bs3 =>
                if utf8Cont c3 then
                  Char.ofNat ((b - 0xF0) * 0x40000 + (c1 - 0x80) * 0x1000 +
                    (c2 - 0x80) * 0x40 + (c3 - 0x80)) :: utf8DecodeAux fuel bs3
                else utf8DecodeAux fuel bs2
            else utf8DecodeAux fuel bs1
        else utf8DecodeAux fuel bs
    else utf8DecodeAux fuel bs

/-- Python `message.decode("utf-8", errors="ignore")`. -/
def decodeUtf8Ignore (bs : List Nat) : String := ⟨utf8DecodeAux bs.length bs⟩

/-- Dataclass `IrcRawMessage` of src/kirk/client.py.  The Python attribute
`prefix` is called `pfx` here because `prefix` is a reserved word in Lean;
the wall-clock `ts` field carries no protocol meaning and is omitted. -/
structure IrcRawMessage where
  pfx : Option String
  command : String
  params : List String
  secure : Bool := false
  deriving Repr, DecidableEq

/-- Property `IrcRawMessage.prefix_nick`: the part of the prefix before the
first exclamation mark (the whole prefix when it contains none, the empty
string when there is no prefix). -/
def IrcRawMessage.prefix_nick (m : IrcRawMessage) : String :=
  match m.pfx with
  | some p =>
    if pyContains p "!" then ⟨p.data.takeWhile (fun c => c != '!')⟩ else p
  | none => ""

/-- First stage of `IrcClient.parse_raw_message` (lines 422-427): decode the
bytes with invalid sequences dropped, strip surrounding whitespace, and
split off an optional colon-led prefix.  The Python unpacking
`prefix, tmp = tmp[1:].split(" ", 1)` raises ValueError when the stripped
line starts with a colon but has no space afterwards, hence the Option. -/
def parseStep1 (message : List Nat) : Option (Option String × String) :=
  if pyStartsWith (pyStrip (decodeUtf8Ignore message)) ":" then
    match pySplitOnce " " (pyDropChars (pyStrip (decodeUtf8Ignore message)) 1) with
    | some (p, rest) => some (some p, rest)
    | none => none
  else some (none, pyStrip (decodeUtf8Ignore message))

/-- Second stage of `IrcClient.parse_raw_message` (lines 428-430): split off
an optional trailing parameter after the first space-colon. -/
def parseStep2 (tmp1 : String) : String × List String :=
  match pySplitOnce " :" tmp1 with
  | some (a, c) => (a, [c])
  | none => (tmp1, [])

/-- Classmethod `IrcClient.parse_raw_message`: after the two stages above,
whitespace-split the remaining text, pop the first token as the command
(empty string when there is none) and append the trailing parameter. -/
def parseRawMessage (message : List Nat) : Option IrcRawMessage :=
  match parseStep1 message with
  | none => none
  | some (pfxv, tmp1) =>
    some { pfx := pfxv,
           command := (pyWhitespaceSplit (parseStep2 tmp1).1).headD "",
           params := (pyWhitespaceSplit (parseStep2 tmp1).1).tail ++ (parseStep2 tmp1).2 }

/-- The leading token list `parse_raw_message` computes just before popping
the command (`none` when the parse raises). -/
def leadingArgs (message : List Nat) : Option (List String) :=
  match parseStep1 message with
  | none => none
  | some (_, tmp1) => some (pyWhitespaceSplit (parseStep2 tmp1).1)

section ParseSanity

example : parseRawMessage (":irc.test 001 kirk :Welcome".data.map Char.toNat) =
    some { pfx := some "irc.test", command := "001", params := ["kirk", "Welcome"] } := by
  decide

example : parseRawMessage ("PING :token".data.map Char.toNat) =
    some { pfx := none, command := "PING", params := ["token"] } := by decide

example : parseRawMessage [] = some { pfx := none, command := "", params := [] } := by decide

end ParseSanity

/-- C3 (amended): `parse_raw_message` returns a message for every input
byte string except those whose decoded, stripped text starts with a colon
and contains no space afterwards (there the prefix unpacking raises
ValueError); invalid byte sequences are dropped during decoding (a stray
0xff byte never survives); and input containing no leading tokens degrades
to a message whose command is the empty string rather than to an error. -/
theorem parse_raw_message_behavior (bs : List Nat) :
    (parseRawMessage bs = none ↔
      (pyStartsWith (pyStrip (decodeUtf8Ignore bs)) ":" = true ∧
        pySplitOnce " " (pyDropChars (pyStrip (decodeUtf8Ignore bs)) 1) = none)) ∧
    (∀ m, parseRawMessage bs = some m → leadingArgs bs = some [] → m.command = "") ∧
    decodeUtf8Ignore (0xff :: bs) = decodeUtf8Ignore bs := by
  refine ⟨?_, ?_, ?_⟩
  · unfold parseRawMessage parseStep1
    by_cases h1 : pyStartsWith (pyStrip (decodeUtf8Ignore bs)) ":" = true
    · cases h2 : pySplitOnce " " (pyDropChars (pyStrip (decodeUtf8Ignore bs)) 1) with
      | none => simp [h1, h2]
      | some pr =>
        obtain ⟨p, rest⟩ := pr
        simp [h1, h2]
    · simp [h1]
  · intro m hm hargs
    unfold parseRawMessage at hm
    unfold leadingArgs at hargs
    cases h1 : parseStep1 bs with
    | none =>
      rw [h1] at hm
      exact absurd hm (by simp)
    | some pr =>
      obtain ⟨pfxv, tmp1⟩ := pr
      rw [h1] at hm hargs
      injection hm with hm
      injection hargs with hargs
      rw [← hm]
      simp [hargs]
  · show decodeUtf8Ignore (0xff :: bs) = decodeUtf8Ignore bs
    unfold decodeUtf8Ignore
    congr 1

/-- C3 counterexample: the two-byte input ":x" (a colon-led line with no
space after the prefix) makes `parse_raw_message` raise ValueError instead
of returning a message, so the claim "never fails" is false as stated. -/
theorem parse_raw_message_colon_failure : parseRawMessage [0x3a, 0x78] = none := by decide

/-- C3 witness: a single-space input parses to the empty-command message,
and the theorem's empty-command clause applies to it. -/
theorem parse_raw_message_behavior_witness :
    parseRawMessage [0x20] = some { pfx := none, command := "", params := [] } ∧
    ({ pfx := none, command := "", params := [] } : IrcRawMessage).command = "" :=
  ⟨rfl, (parse_raw_message_behavior [0x20]).2.1 _ rfl rfl⟩

/-!
DCC layer: the transfer record, the CTCP offer parsing, and the receive
loop of `IrcClient.dcc_download`.
-/

/-- Digit-and-underscore accumulator for `pyInt` (single underscores are
allowed between digits, as in Python int literals/parsing). -/
def digitsValAux : Nat → List Char → Option Nat
  | acc, [] => some acc
  | acc, '_' :: c :: cs =>
    if c.isDigit then digitsValAux (acc * 10 + (c.toNat - 48)) cs else none
  | _, ['_'] => none
  | acc, c :: cs =>
    if c.isDigit then digitsValAux (acc * 10 + (c.toNat - 48)) cs else none

/-- Digit sequence value, `none` when empty or malformed. -/
def digitsVal : List Char → Option Nat
  | [] => none
  | '_' :: _ => none
  | c :: cs => if c.isDigit then digitsValAux (c.toNat - 48) cs else none

/-- Python `int(token)` on a whitespace-free token: optional sign followed
by ASCII digits with single underscores between digits; `none` models the
ValueError raised on anything else. -/
def pyInt (s : String) : Option Int :=
  match s.data with
  | '+' :: rest => (digitsVal rest).map (fun n => (n : Int))
  | '-' :: rest => (digitsVal rest).map (fun n => -(n : Int))
  | rest => (digitsVal rest).map (fun n => (n : Int))

/-- Dataclass `DCC` of src/kirk/client.py.  The Python `ip` attribute stores
`str(ipaddress.ip_address(int(ip)))`; the embedding keeps the parsed
numeric address value, whose validity window (`0 ≤ v < 2^128`, outside of
which `ipaddress.ip_address` raises ValueError) is what the control flow
depends on — the dotted/hex rendering is presentation only.  The wall-clock
`start_time`/`end_time` fields are omitted. -/
structure DCC where
  source : String
  filename : String
  size : Int
  ip : Int
  port : Int
  ssl : Bool := false
  bytes_received : Nat := 0
  verified : Bool := false
  deriving Repr, DecidableEq

/-- Property `DCC.complete`: `self.size == self.bytes_received`. -/
def DCC.complete (d : DCC) : Bool := d.size == (d.bytes_received : Int)

/-- The `DCC` branch of `IrcClient.process_privmsg_ctcp` (lines 302-316):
tokenize the offer, unpack at least six fields, convert the numeric fields,
and build the transfer record; any ValueError (too few fields, non-numeric
field, address value out of range) is caught, logged, and yields no
record. -/
def parseDccOffer (source text : String) : Option DCC :=
  match pyWhitespaceSplit text with
  | _ :: sendType :: filename :: ipTok :: portTok :: sizeTok :: _ =>
    match pyInt sizeTok, pyInt ipTok, pyInt portTok with
    | some sz, some ipv, some portv =>
      if 0 ≤ ipv ∧ ipv < 2 ^ 128 then
        some { source := source, filename := filename, size := sz, ip := ipv,
               port := portv, ssl := sendType == "SSEND" }
      else none
    | _, _, _ => none
  | _ => none

/-- Effect of the `DCC` branch on the transfer list and the number of
spawned download tasks (`self.dcc.append(dcc)` plus
`self._delay(self.dcc_download(dcc))` on success, an early `return` on
ValueError). -/
def processDccOffer (transfers : List DCC) (source text : String) : List DCC × Nat :=
  match parseDccOffer source text with
  | none => (transfers, 0)
  | some d => (transfers ++ [d], 1)

/-- `struct.pack("!Q", n)`: the 8-byte big-endian encoding of `n`, defined
for `n < 2^64` (struct.error otherwise). -/
def packQ (n : Nat) : Option (List Nat) :=
  if n < 2 ^ 64 then
    some [n / 2 ^ 56 % 256, n / 2 ^ 48 % 256, n / 2 ^ 40 % 256, n / 2 ^ 32 % 256,
      n / 2 ^ 24 % 256, n / 2 ^ 16 % 256, n / 2 ^ 8 % 256, n % 256]
  else none

/-- Big-endian byte-list decoding, used to check that `packQ` really is the
big-endian encoding. -/
def beDecode (l : List Nat) : Nat := l.foldl (fun a b => a * 256 + b) 0

/-- The receive loop of `IrcClient.dcc_download` (lines 397-410), abstracted
over the sequence of chunk lengths returned by the socket reads: each chunk
adds its length to `bytes_received`; as soon as the record is complete the
loop writes the 8-byte big-endian byte count followed by CRLF-CRLF and
stops; when the chunk stream ends without reaching completion no
acknowledgement is written. -/
def dccRecvLoop : DCC → List Nat → DCC × Option (List Nat)
  | d, [] => (d, none)
  | d, c :: cs =>
    let d2 := { d with bytes_received := d.bytes_received + c }
    if d2.complete then
      (d2, (packQ d2.bytes_received).map (fun a => a ++ [13, 10, 13, 10]))
    else dccRecvLoop d2 cs

/-- The big-endian encoding produced by `packQ` decodes back to its input. -/
theorem beDecode_packQ (n : Nat) (h : n < 2 ^ 64) :
    beDecode ((packQ n).getD []) = n := by
  unfold packQ
  rw [if_pos h]
  unfold beDecode
  simp only [Option.getD_some, List.foldl_cons, List.foldl_nil]
  omega

/-- C8: a CTCP DCC offer whose numeric fields are malformed or that has too
few fields is discarded atomically — the transfer list is unchanged and no
download task is spawned — while a well-formed offer appends exactly one
new transfer record and spawns exactly one download task. -/
theorem dcc_offer_dispatch (transfers : List DCC) (source text : String) :
    (parseDccOffer source text = none →
      processDccOffer transfers source text = (transfers, 0)) ∧
    (∀ d, parseDccOffer source text = some d →
      processDccOffer transfers source text = (transfers ++ [d], 1) ∧
      (transfers ++ [d]).length = transfers.length + 1) := by
  constructor
  · intro h
    unfold processDccOffer
    rw [h]
  · intro d h
    unfold processDccOffer
    rw [h]
    simp

set_option maxRecDepth 8192 in
/-- C8 witness: a well-formed offer appends one record and spawns one task;
an offer with a non-numeric address field is discarded. -/
theorem dcc_offer_dispatch_witness :
    processDccOffer [] "peer" "DCC SEND f.bin 2130706433 5000 42" =
      ([{ source := "peer", filename := "f.bin", size := 42, ip := 2130706433,
          port := 5000 }], 1) ∧
    processDccOffer [] "peer" "DCC SEND f.bin x 5000 42" = ([], 0) :=
  ⟨((dcc_offer_dispatch [] "peer" "DCC SEND f.bin 2130706433 5000 42").2 _ (by decide)).1,
   (dcc_offer_dispatch [] "peer" "DCC SEND f.bin x 5000 42").1 (by decide)⟩

/-- C9: a transfer is complete exactly when `bytes_received` equals the
offered size; whenever the receive loop writes an acknowledgement the
record is complete with `bytes_received = size` and the acknowledgement is
the 8-byte big-endian encoding of the byte count (checked by decoding it
back) followed by CRLF-CRLF; and for a transfer of representable size, a
chunk stream that ends (peer-initiated close) without reaching byte
equality never completes it. -/
theorem dcc_completion_ack :
    (∀ d : DCC, d.complete = true ↔ d.size = (d.bytes_received : Int)) ∧
    (∀ (d : DCC) (cs : List Nat) (d2 : DCC) (ack : List Nat),
      dccRecvLoop d cs = (d2, some ack) →
      d2.complete = true ∧ (d2.bytes_received : Int) = d2.size ∧
      d2.bytes_received < 2 ^ 64 ∧
      ack = (packQ d2.bytes_received).getD [] ++ [13, 10, 13, 10] ∧
      beDecode (ack.take 8) = d2.bytes_received) ∧
    (∀ (d : DCC) (cs : List Nat) (d2 : DCC),
      d.complete = false → d.size < 2 ^ 64 →
      dccRecvLoop d cs = (d2, none) → d2.complete = false) := by
  have hcompl : ∀ d : DCC, d.complete = true ↔ d.size = (d.bytes_received : Int) := by
    intro d
    unfold DCC.complete
    exact beq_iff_eq
  refine ⟨hcompl, ?_, ?_⟩
  · intro d cs
    induction cs generalizing d with
    | nil =>
      intro d2 ack h
      simp only [dccRecvLoop] at h
      exact Option.noConfusion (congrArg Prod.snd h)
    | cons c cs ih =>
      intro d2 ack h
      simp only [dccRecvLoop] at h
      by_cases hc : ({ d with bytes_received := d.bytes_received + c } : DCC).complete = true
      · rw [if_pos hc] at h
        cases hp : packQ (d.bytes_received + c) with
        | none =>
          rw [hp] at h
          exact Option.noConfusion (congrArg Prod.snd h)
        | some bytes =>
          rw [hp] at h
          simp only [Option.map] at h
          injection h with h1 h2
          injection h2 with h2
          have hlt : d.bytes_received + c < 2 ^ 64 := by
            by_contra hge
            unfold packQ at hp
            rw [if_neg hge] at hp
            exact Option.noConfusion hp
          refine ⟨h1 ▸ hc, ?_, ?_, ?_, ?_⟩
          · rw [← h1]
            exact ((hcompl _).mp hc).symm
          · rw [← h1]
            exact hlt
          · rw [← h2, ← h1]
            show bytes ++ [13, 10, 13, 10] =
              (packQ (d.bytes_received + c)).getD [] ++ [13, 10, 13, 10]
            rw [hp]
            rfl
          · rw [← h2, ← h1]
            show beDecode ((bytes ++ [13, 10, 13, 10]).take 8) = d.bytes_received + c
            have hbytes : (packQ (d.bytes_received + c)).getD [] = bytes := by
              rw [hp]
              rfl
            have hblen : bytes.length = 8 := by
              rw [← hbytes]
              unfold packQ
              rw [if_pos hlt]
              rfl
            rw [← hblen, List.take_left, ← hbytes]
            exact beDecode_packQ _ hlt
      · rw [if_neg hc] at h
        exact ih _ _ _ h
  · intro d cs
    induction cs generalizing d with
    | nil =>
      intro d2 hnc hsz h
      simp only [dccRecvLoop] at h
      injection h with h1 h2
      rw [← h1]
      exact hnc
    | cons c cs ih =>
      intro d2 hnc hsz h
      simp only [dccRecvLoop] at h
      by_cases hc : ({ d with bytes_received := d.bytes_received + c } : DCC).complete = true
      · rw [if_pos hc] at h
        exfalso
        have heq : ((d.bytes_received + c : Nat) : Int) = d.size := ((hcompl _).mp hc).symm
        have hlt : ((d.bytes_received + c : Nat) : Int) < 2 ^ 64 := by
          rw [heq]
          exact hsz
        have hltn : d.bytes_received + c < 2 ^ 64 := by exact_mod_cast hlt
        unfold packQ at h
        rw [if_pos hltn] at h
        simp only [Option.map] at h
        exact Option.noConfusion (congrArg Prod.snd h)
      · rw [if_neg hc] at h
        exact ih { d with bytes_received := d.bytes_received + c } d2
          (by simpa using hc) hsz h

set_option maxRecDepth 8192 in
/-- C9 witness: a size-3 transfer fed chunks of 2 and 1 bytes completes and
writes the big-endian acknowledgement, and the theorem's acknowledgement
clause applies to that run. -/
theorem dcc_completion_ack_witness :
    ({ source := "p", filename := "f", size := 3, ip := 0, port := 1 } : DCC).complete
        = false ∧
    dccRecvLoop { source := "p", filename := "f", size := 3, ip := 0, port := 1 } [2, 1] =
      ({ source := "p", filename := "f", size := 3, ip := 0, port := 1,
         bytes_received := 3 },
       some [0, 0, 0, 0, 0, 0, 0, 3, 13, 10, 13, 10]) ∧
    beDecode [0, 0, 0, 0, 0, 0, 0, 3] = 3 :=
  ⟨by decide, by decide,
    (dcc_completion_ack.2.1
      { source := "p", filename := "f", size := 3, ip := 0, port := 1 } [2, 1]
      { source := "p", filename := "f", size := 3, ip := 0, port := 1,
        bytes_received := 3 }
      [0, 0, 0, 0, 0, 0, 0, 3, 13, 10, 13, 10] (by decide)).2.2.2.2⟩

/-!
Session layer: the client state, buffer routing (`get_buf`), the
encryption layer around per-peer keys, and the dispatcher cases the claims
target.
-/

/-- Class attribute `IrcClient.encryption_marker`: the magic byte marking
encrypted messages. -/
def encryptionMarker : String := "~"

/-- Function `is_channel_name`: a name is a channel name when it starts
with one of the prefixes in `CHANNEL_PREFIXES = "&#+!"`. -/
def is_channel_name (name : String) : Bool :=
  pyStartsWith name "&" || pyStartsWith name "#" ||
    pyStartsWith name "+" || pyStartsWith name "!"

/-- Abstract model of the `cryptography.fernet.Fernet` authenticated
encryption scheme used by the client (the library is external to the
repository): `enc key t plaintext` is the token minted at time `t`, and
`dec key token ttl now` is the decryption attempt at time `now` with
freshness ceiling `ttl`, `none` on any failure (wrong key, expired token,
corrupt payload — the InvalidToken cases). -/
structure FernetModel where
  enc : String → Nat → String → String
  dec : String → String → Nat → Nat → Option String

/-- Class `IrcChannel`: per-channel state created as `IrcChannel(name)`
with an unbounded-default history buffer. -/
structure IrcChannelState where
  name : String
  mode : String := ""
  topic : String := ""
  topic_origin : String × String := ("", "")
  users : Finset String := ∅
  buf : Buffer IrcRawMessage := Buffer.init none

/-- Fresh channel state, as `ChannelDict.__missing__` creates it. -/
def mkChannel (name : String) : IrcChannelState := { name := name }

/-- The slice of `IrcClient` instance state that the dispatched commands
mutate: own nick, known server aliases, mode set, channel table, per-peer
conversation buffers, transfer list, per-peer keys and the log buffer. -/
structure ClientState where
  host : String
  nick : String
  servers : List String := []
  mode : Finset String := ∅
  channels : List (String × IrcChannelState) := []
  chats : List (String × Buffer IrcRawMessage) := []
  dcc : List DCC := []
  keys : List (String × String) := []
  log_buf : Buffer IrcRawMessage := Buffer.init (some 512)

/-- Association-list lookup (Python dict access). -/
def lookupA {β : Type} (l : List (String × β)) (k : String) : Option β :=
  (l.find? (fun p => p.1 == k)).map Prod.snd

/-- Association-list update-or-append (Python dict assignment). -/
def setA {β : Type} (l : List (String × β)) (k : String) (v : β) : List (String × β) :=
  if (l.find? (fun p => p.1 == k)).isSome then
    l.map (fun p => if p.1 == k then (k, v) else p)
  else l ++ [(k, v)]

/-- Auto-vivifying channel access (`ChannelDict`) followed by an update. -/
def modifyChannel (st : ClientState) (name : String)
    (f : IrcChannelState → IrcChannelState) : ClientState :=
  let cur := (lookupA st.channels name).getD (mkChannel name)
  { st with channels := setA st.channels name (f cur) }

/-- Auto-vivifying conversation-buffer access (`defaultdict(Buffer)`)
followed by an update. -/
def modifyChat (st : ClientState) (name : String)
    (f : Buffer IrcRawMessage → Buffer IrcRawMessage) : ClientState :=
  let cur := (lookupA st.chats name).getD (Buffer.init none)
  { st with chats := setA st.chats name (f cur) }

/-- `self.server_buf.insert(m)`: the server buffer is the conversation
buffer filed under the host name. -/
def serverBufInsert (st : ClientState) (m : IrcRawMessage) : ClientState :=
  modifyChat st st.host (fun b => b.insert m)

/-- `self.get_buf(name).insert(m)`: route to the server buffer for the host
or a known server alias, to the channel history for channel names, and to
the peer conversation buffer otherwise. -/
def getBufInsert (st : ClientState) (name : String) (m : IrcRawMessage) : ClientState :=
  if name == st.host || st.servers.contains name then
    serverBufInsert st m
  else if is_channel_name name then
    modifyChannel st name (fun ch => { ch with buf := ch.buf.insert m })
  else
    modifyChat st name (fun b => b.insert m)

/-- The log entry `IrcClient.log` files into `log_buf` for a plain-string
error message (`head or "INT"`, `str(logging.ERROR) = "40"`). -/
def noKeyLogEntry (recipient : String) : IrcRawMessage :=
  { pfx := some "INT", command := "40",
    params := [pyConcat recipient " has no key. Cannot send encrypted message"] }

/-- Synthetic entry appended on decryption failure
(`IrcRawMessage(source, "SEC", ["failed decrypting message"])`). -/
def secFailEntry (source : String) : IrcRawMessage :=
  { pfx := some source, command := "SEC", params := ["failed decrypting message"] }

/-- Method `IrcClient.send_message` at minting time `t`: with encryption
requested, a missing (or empty, hence falsy) key logs an error and sends
nothing; otherwise the outgoing text is the marker byte concatenated with
the Fernet token of the plaintext, the plaintext message is filed into the
recipient's buffer with `secure = encrypt`, and the outgoing text is handed
to `send_cmd` (the returned String). -/
def sendMessage (f : FernetModel) (t : Nat) (st : ClientState)
    (recipient text : String) (encryptFlag : Bool) : ClientState × Option String :=
  if encryptFlag then
    match lookupA st.keys recipient with
    | some key =>
      if key == "" then
        ({ st with log_buf := st.log_buf.insert (noKeyLogEntry recipient) }, none)
      else
        (getBufInsert st recipient
          { pfx := some st.nick, command := "PRIVMSG", params := [recipient, text],
            secure := encryptFlag },
         some (pyConcat encryptionMarker (f.enc key t text)))
    | none =>
      ({ st with log_buf := st.log_buf.insert (noKeyLogEntry recipient) }, none)
  else
    (getBufInsert st recipient
      { pfx := some st.nick, command := "PRIVMSG", params := [recipient, text],
        secure := encryptFlag },
     some text)

/-- Method `IrcClient.decrypt_privmsg` at time `now`: unpack the two
parameters (ValueError — hence `none` — on any other shape), leave the
message alone when the text does not start with the marker or no key is on
file for the sender; otherwise attempt authenticated decryption with
`ttl=5`; on success rewrite `params[1]` in place and set `secure`; on
failure file a synthetic SEC entry into the sender's buffer and leave the
message untouched. -/
def decryptPrivmsg (f : FernetModel) (now : Nat) (st : ClientState)
    (msg : IrcRawMessage) : Option (ClientState × IrcRawMessage) :=
  match msg.params with
  | [_t, text] =>
    some (
      if !(pyStartsWith text encryptionMarker) || (lookupA st.keys msg.prefix_nick).isNone
      then (st, msg)
      else
        match lookupA st.keys msg.prefix_nick with
        | some key =>
          match f.dec key (pyDropChars text encryptionMarker.length) 5 now with
          | some plain =>
            (st, { msg with params := msg.params.set 1 plain, secure := true })
          | none =>
            (getBufInsert st msg.prefix_nick (secFailEntry msg.prefix_nick), msg)
        | none => (st, msg))
  | _ => none

/-- The `case "353"` branch of `IrcClient.process_message` (RPL_NAMREPLY):
merge each whitespace-separated name of `params[3]`, left-stripped of the
characters `+` and `&`, into the channel's user set, then file the raw
message into the channel's history (`none` models the IndexError on too
few parameters). -/
def process353 (st : ClientState) (msg : IrcRawMessage) : Option ClientState :=
  match msg.params[2]?, msg.params[3]? with
  | some chanName, some names =>
    some (
      modifyChannel
        ((pyWhitespaceSplit names).foldl
          (fun s u => modifyChannel s chanName
            (fun ch => { ch with users := insert (pyLstrip u "+&") ch.users })) st)
        chanName (fun ch => { ch with buf := ch.buf.insert msg }))
  | _, _ => none

/-- The `case "NICK"` branch of `IrcClient.process_message`: update the own
nick to `params[0]` exactly when the raw `message.prefix` equals the
current nick, and always file the message into the server buffer (`none`
models the IndexError when the update fires with no parameter). -/
def processNick (st : ClientState) (msg : IrcRawMessage) : Option ClientState :=
  if msg.pfx == some st.nick then
    match msg.params[0]? with
    | some newNick => some (serverBufInsert { st with nick := newNick } msg)
    | none => none
  else some (serverBufInsert st msg)

/-- Helper: a list is a Boolean prefix of itself followed by anything. -/
theorem isPrefixOf_append_self {α : Type} [BEq α] [LawfulBEq α] (l r : List α) :
    l.isPrefixOf (l ++ r) = true := by
  rw [List.isPrefixOf_iff_prefix]
  exact List.prefix_append l r

/-- Helper: concatenating onto a marker yields a string starting with it. -/
theorem pyStartsWith_pyConcat (p s : String) : pyStartsWith (pyConcat p s) p = true := by
  unfold pyStartsWith pyConcat
  exact isPrefixOf_append_self _ _

/-- Helper: dropping the marker from a marker-led concatenation recovers
the payload. -/
theorem pyDropChars_pyConcat (p s : String) : pyDropChars (pyConcat p s) p.length = s := by
  show (⟨(p.data ++ s.data).drop p.data.length⟩ : String) = s
  rw [List.drop_left]

/-- C4: sending an encrypted private message produces exactly the one-byte
marker concatenated with the Fernet token of the plaintext (the marker is
prepended after encryption, never part of the ciphertext input), and a
receiver holding the same key who decrypts within the 5-second freshness
ceiling gets back a message whose text is the original plaintext and whose
secure flag is set, leaving the rest of the state untouched. -/
theorem encrypt_decrypt_round_trip (f : FernetModel) (t now : Nat)
    (st st2 : ClientState) (sender recipient target text key : String)
    (hkey : lookupA st.keys recipient = some key) (hkeyne : ¬ key = "")
    (hkey2 : lookupA st2.keys
        (IrcRawMessage.prefix_nick
          { pfx := some sender, command := "PRIVMSG",
            params := [target, pyConcat encryptionMarker (f.enc key t text)] }) = some key)
    (hfresh : now - t ≤ 5)
    (hrt : ∀ (k m : String) (t2 n2 : Nat), n2 - t2 ≤ 5 →
      f.dec k (f.enc k t2 m) 5 n2 = some m) :
    (sendMessage f t st recipient text true).2 =
      some (pyConcat encryptionMarker (f.enc key t text)) ∧
    decryptPrivmsg f now st2
        { pfx := some sender, command := "PRIVMSG",
          params := [target, pyConcat encryptionMarker (f.enc key t text)] } =
      some (st2,
        { pfx := some sender, command := "PRIVMSG", params := [target, text],
          secure := true }) := by
  have hdec := hrt key text t now hfresh
  constructor
  · simp [sendMessage, hkey, hkeyne]
  · simp [decryptPrivmsg, pyStartsWith_pyConcat, hkey2, pyDropChars_pyConcat, hdec,
      List.set]

/-- C4 witness: a concrete cipher satisfying the Fernet round-trip contract
composed through send and receive on concrete states. -/
theorem encrypt_decrypt_round_trip_witness :
    (sendMessage { enc := fun _ _ m => m, dec := fun _ tok _ _ => some tok } 0
        { host := "irc.x", nick := "me", keys := [("bob", "k")] } "bob" "hi" true).2 =
      some (pyConcat encryptionMarker "hi") ∧
    decryptPrivmsg { enc := fun _ _ m => m, dec := fun _ tok _ _ => some tok } 0
        { host := "irc.x", nick := "me", keys := [("bob", "k")] }
        { pfx := some "bob!u@h", command := "PRIVMSG",
          params := ["me", pyConcat encryptionMarker "hi"] } =
      some ({ host := "irc.x", nick := "me", keys := [("bob", "k")] },
        { pfx := some "bob!u@h", command := "PRIVMSG", params := ["me", "hi"],
          secure := true }) :=
  encrypt_decrypt_round_trip
    { enc := fun _ _ m => m, dec := fun _ tok _ _ => some tok } 0 0
    { host := "irc.x", nick := "me", keys := [("bob", "k")] }
    { host := "irc.x", nick := "me", keys := [("bob", "k")] }
    "bob!u@h" "bob" "me" "hi" "k" (by decide) (by decide) (by decide) (by decide)
    (fun _ _ _ _ _ => rfl)

/-- C5: an incoming marker-prefixed private message from a peer with a key
on file whose authenticated decryption fails is handled without raising:
the synthetic "failed decrypting message" entry is filed into that peer's
buffer and the original message (text and secure flag) is returned
unchanged. -/
theorem decrypt_failure_local (f : FernetModel) (now : Nat) (st : ClientState)
    (sender target text key : String)
    (hstart : pyStartsWith text encryptionMarker = true)
    (hkey : lookupA st.keys
        (IrcRawMessage.prefix_nick
          { pfx := some sender, command := "PRIVMSG", params := [target, text] }) =
        some key)
    (hfail : f.dec key (pyDropChars text encryptionMarker.length) 5 now = none) :
    decryptPrivmsg f now st
        { pfx := some sender, command := "PRIVMSG", params := [target, text] } =
      some
        (getBufInsert st
          (IrcRawMessage.prefix_nick
            { pfx := some sender, command := "PRIVMSG", params := [target, text] })
          (secFailEntry
            (IrcRawMessage.prefix_nick
              { pfx := some sender, command := "PRIVMSG", params := [target, text] })),
         { pfx := some sender, command := "PRIVMSG", params := [target, text] }) := by
  simp [decryptPrivmsg, hstart, hkey, hfail]

/-- C5 witness: a cipher that always rejects, applied to a concrete
marker-prefixed message. -/
theorem decrypt_failure_local_witness :
    decryptPrivmsg { enc := fun _ _ m => m, dec := fun _ _ _ _ => none } 0
        { host := "irc.x", nick := "me", keys := [("eve", "k")] }
        { pfx := some "eve", command := "PRIVMSG", params := ["me", "~zzz"] } =
      some
        (getBufInsert { host := "irc.x", nick := "me", keys := [("eve", "k")] }
          (IrcRawMessage.prefix_nick
            { pfx := some "eve", command := "PRIVMSG", params := ["me", "~zzz"] })
          (secFailEntry
            (IrcRawMessage.prefix_nick
              { pfx := some "eve", command := "PRIVMSG", params := ["me", "~zzz"] })),
         { pfx := some "eve", command := "PRIVMSG", params := ["me", "~zzz"] }) :=
  decrypt_failure_local { enc := fun _ _ m => m, dec := fun _ _ _ _ => none } 0
    { host := "irc.x", nick := "me", keys := [("eve", "k")] }
    "eve" "me" "~zzz" "k" (by decide) (by decide) rfl

set_option maxRecDepth 8192 in
/-- C6 (code evaluated at the failing input): dispatching RPL_NAMREPLY with
users "@alice +bob carol" merges exactly the three strings "@alice", "bob"
and "carol" into the channel's user set — the operator glyph `@` survives
because the code strips only the characters `+` and `&`, so the bare nick
"alice" is never added — while the raw message is filed into the channel's
history as the claim says. -/
theorem namreply_at_failing_input :
    ((process353 { host := "srv", nick := "me" }
        { pfx := some "srv", command := "353",
          params := ["me", "=", "#ch", "@alice +bob carol"] }).bind
      (fun s => (lookupA s.channels "#ch").map
        (fun ch => (decide ("@alice" ∈ ch.users), decide ("bob" ∈ ch.users),
          decide ("carol" ∈ ch.users), decide ("alice" ∈ ch.users), ch.users.card))) =
      some (true, true, true, false, 3)) ∧
    ((process353 { host := "srv", nick := "me" }
        { pfx := some "srv", command := "353",
          params := ["me", "=", "#ch", "@alice +bob carol"] }).bind
      (fun s => (lookupA s.channels "#ch").map (fun ch => ch.buf.buf)) =
      some [{ pfx := some "srv", command := "353",
              params := ["me", "=", "#ch", "@alice +bob carol"] }]) := by
  decide

set_option maxRecDepth 8192 in
/-- C7 (code evaluated at the failing input): a NICK message whose prefix
is the hostmask "me!u@h" has actor (prefix_nick) "me", equal to the
client's current nickname, yet the dispatcher leaves the nickname
unchanged because it compares the raw prefix — not the actor — against the
nick; the message is still filed into the server buffer. -/
theorem nick_at_failing_input :
    (IrcRawMessage.prefix_nick
        { pfx := some "me!u@h", command := "NICK", params := ["neo"] } = "me") ∧
    ((processNick { host := "srv", nick := "me" }
        { pfx := some "me!u@h", command := "NICK", params := ["neo"] }).map
      ClientState.nick = some "me") ∧
    ((processNick { host := "srv", nick := "me" }
        { pfx := some "me!u@h", command := "NICK", params := ["neo"] }).bind
      (fun s => (lookupA s.chats "srv").map (fun b => b.buf)) =
      some [{ pfx := some "me!u@h", command := "NICK", params := ["neo"] }]) := by
  decide
